import Mathlib

/-!
Verification of the micro-x-agent-loop runtime: a shallow Lean embedding of
the turn engine, the tool runtime, the memory core (sessions, checkpoints,
event sink) and the compaction strategy, translated from the Python source
in `src/micro_x_agent_loop`.  I/O effects (SQLite rows, the filesystem,
event emission, printing) are made explicit as values; UUIDs and wall-clock
timestamps, which no verified property depends on, are left out of the
modelled rows.
-/

namespace MicroX

/-- Byte strings (`bytes` in Python) as lists of byte values. -/
def Bytes := List Nat

deriving instance DecidableEq, Repr for Bytes

/-- A JSON-ish value appearing in a tool input dict.  Only the shape the
checkpoint code inspects matters: string values versus everything else
(`isinstance(path_val, str)`). -/
inductive JValue where
  | jstr (s : String)
  | jother
  deriving DecidableEq, Repr

/-- A tool input dict, as an association list (`tool_input: dict`). -/
def ToolInput := List (String × JValue)

deriving instance DecidableEq, Repr for ToolInput

/-- `tool_input.get(key)`. -/
def ToolInput.get (ti : ToolInput) (key : String) : Option JValue :=
  (List.find? (fun kv => kv.1 = key) ti).map (·.2)

/-- Python's `str.strip()`: remove leading and trailing whitespace. -/
def pyStrip (s : String) : String :=
  String.mk
    (((s.data.dropWhile Char.isWhitespace).reverse.dropWhile Char.isWhitespace).reverse)

/-- Python's `str.lower()`. -/
def pyLower (s : String) : String :=
  String.mk (s.data.map Char.toLower)

/-! ## Tool-result truncation

From `turn_engine.py`, `TurnEngine._truncate_tool_result` (and the identical
`Agent._truncate_tool_result` in `agent.py`). -/

/-- Digit grouping used by Python's `format(n, ",")` (the `{…:,}` f-string
conversion): groups of three digits from the right, separated by commas.
`groupRev` chunks an already reversed digit list. -/
def groupRev : List Char → List (List Char)
  | [] => []
  | [c] => [[c]]
  | [c, d] => [[c, d]]
  | c :: d :: e :: rest => [c, d, e] :: groupRev rest

/-- Render a natural number with thousands separators, as `f"{n:,}"` does. -/
def commaFmt (n : Nat) : String :=
  String.mk (List.reverse (List.flatten
    (List.intersperse [','] (groupRev (toString n).data.reverse))))

/-- The `[OUTPUT TRUNCATED: …]` marker appended by `_truncate_tool_result`. -/
def truncationMarker (maxChars : Int) (originalLength : Nat) (toolName : String) : String :=
  "\n\n[OUTPUT TRUNCATED: Showing " ++ commaFmt maxChars.toNat
    ++ " of " ++ commaFmt originalLength
    ++ " characters from " ++ toolName ++ "]"

/-- `TurnEngine._truncate_tool_result(result, tool_name)`:
returns `result` unchanged when `max_tool_result_chars <= 0` or the result
already fits; otherwise the first `max_tool_result_chars` characters plus
the truncation marker.  (The `logger.warning` call has no effect on the
returned value.) -/
def truncateToolResult (maxChars : Int) (result : String) (toolName : String) : String :=
  if maxChars ≤ 0 ∨ (result.length : Int) ≤ maxChars then
    result
  else
    result.take maxChars.toNat ++ truncationMarker maxChars result.length toolName

/-! ## Stop-reason handling in the providers

From `providers/openai_provider.py` (`_STOP_REASON_MAP` and line 226) and
`providers/anthropic_provider.py` (`stream_chat`, lines 89–110). -/

/-- `_STOP_REASON_MAP.get(key, "end_turn")` from `openai_provider.py`. -/
def openaiStopReasonMap (key : String) : String :=
  if key = "stop" then "end_turn"
  else if key = "tool_calls" then "tool_use"
  else if key = "length" then "max_tokens"
  else "end_turn"

/-- `stop_reason = _STOP_REASON_MAP.get(finish_reason or "stop", "end_turn")`:
`finish_reason` is falsy when it is `None` or the empty string. -/
def openaiStopReason (finishReason : Option String) : String :=
  openaiStopReasonMap
    (match finishReason with
     | none => "stop"
     | some s => if s = "" then "stop" else s)

/-- A content block of the final Anthropic API message
(`response.content` in `AnthropicProvider.stream_chat`).  `inputJsonLen`
carries the length of `json.dumps(input)` alongside the input dict, since
token estimation later reads only that length. -/
inductive AnthBlock where
  | text (t : String)
  | toolUse (id name : String) (input : ToolInput) (inputJsonLen : Nat)
  | otherBlock
  deriving DecidableEq, Repr

/-- Internal (Anthropic-style) content blocks of an assistant or user
message.  `str` models a bare string inside a content list; `tool_use`
inputs are carried verbatim, together with the length of their JSON
serialisation (`json.dumps(input)`), which token estimation reads. -/
inductive Block where
  | str (s : String)
  | text (t : String)
  | toolUse (id name : String) (input : ToolInput) (inputJsonLen : Nat)
  | toolResult (toolUseId : String) (content : String) (isError : Bool)
  | otherBlock
  deriving DecidableEq, Repr

/-- Message content: either a plain string or a list of typed blocks. -/
inductive Content where
  | str (s : String)
  | blocks (bs : List Block)
  deriving DecidableEq, Repr

/-- A chat message (`{"role": …, "content": …}`). -/
structure Message where
  role : String
  content : Content
  deriving DecidableEq, Repr

/-- Assembly of the return value of `AnthropicProvider.stream_chat` from the
final API message (lines 95–110): text and tool_use blocks are collected
into `assistant_content`, tool_use blocks also into `tool_use_blocks`, and
`response.stop_reason` is returned unchanged. -/
def anthropicStreamChatResult (respContent : List AnthBlock) (respStopReason : String) :
    Message × List Block × String :=
  let assistantContent := respContent.foldr
    (fun b acc =>
      match b with
      | AnthBlock.text t => Block.text t :: acc
      | AnthBlock.toolUse id name input jlen => Block.toolUse id name input jlen :: acc
      | AnthBlock.otherBlock => acc)
    []
  let toolUseBlocks := assistantContent.filter
    (fun b => match b with | Block.toolUse .. => true | _ => false)
  (⟨"assistant", Content.blocks assistantContent⟩, toolUseBlocks, respStopReason)

/-- The normalised stop-reason vocabulary named by the spec. -/
def normalisedStopReasons : List String := ["end_turn", "tool_use", "max_tokens"]

/-! ## Compaction (`compaction.py`)

`SummarizeCompactionStrategy.maybe_compact` with its helpers
`estimate_tokens`, `_adjust_boundary` and `_rebuild_messages`.  The network
call `_summarize` is abstracted as a function argument returning the summary
string, or `none` when it raises (the `except` branch).  `tool_result`
content is modelled in its string form, the only form this runtime
constructs (`turn_engine.py` lines 138–179). -/

/-- Character count a single message contributes in `estimate_tokens`. -/
def messageChars (m : Message) : Nat :=
  match m.content with
  | Content.str s => s.length
  | Content.blocks bs =>
    bs.foldl
      (fun acc b =>
        match b with
        | Block.str s => acc + s.length
        | Block.text t => acc + t.length
        | Block.toolUse _ name _ jlen => acc + name.length + jlen
        | Block.toolResult _ c _ => acc + c.length
        | Block.otherBlock => acc)
      0

/-- `estimate_tokens(messages)`: total characters divided by 4. -/
def estimateTokens (messages : List Message) : Nat :=
  (messages.foldl (fun acc m => acc + messageChars m) 0) / 4

/-- Does a block list contain a `tool_use` block
(`any(isinstance(b, dict) and b.get("type") == "tool_use" for b in content)`)? -/
def hasToolUse (bs : List Block) : Bool :=
  bs.any fun b => match b with | Block.toolUse .. => true | _ => false

/-- The compound break condition of `_adjust_boundary`'s loop body: the
message at the boundary is an assistant message whose content is a list
containing a `tool_use` block. -/
def isAssistantToolUse (m : Message) : Bool :=
  m.role = "assistant" &&
    (match m.content with
     | Content.blocks bs => hasToolUse bs
     | Content.str _ => false)

/-- `_adjust_boundary(messages, start, end)`: while `end > start + 1` and
`messages[end - 1]` is an assistant message containing a `tool_use` block,
retreat `end` by one.  (Structural recursion on `end`; the lookup
`messages[end - 1]` is always in range at every call site, and an
out-of-range read is modelled as exiting the loop.) -/
def adjustBoundary (messages : List Message) (start : Nat) : Nat → Nat
  | 0 => 0
  | e + 1 =>
    if start + 1 < e + 1 then
      match messages[e]? with
      | some m =>
        if isAssistantToolUse m then adjustBoundary messages start e else e + 1
      | none => e + 1
    else e + 1

/-- `"\n".join` of the `text` fields of the dict blocks of type `text`. -/
def joinTextParts (bs : List Block) : String :=
  String.intercalate "\n"
    (bs.filterMap fun b => match b with | Block.text t => some t | _ => none)

/-- The synthetic acknowledgement inserted by `_rebuild_messages`. -/
def ackMessage : Message :=
  ⟨"assistant", Content.blocks [Block.text "Understood. Continuing with the current task."]⟩

/-- `_rebuild_messages(messages, compact_end, summary)`.  The source indexes
`messages[0]`; every call site guarantees `len(messages) >= 2`, and the
empty case is mapped to the empty list. -/
def rebuildMessages (messages : List Message) (compactEnd : Nat) (summary : String) :
    List Message :=
  match messages with
  | [] => []
  | firstMsg :: _ =>
    let originalContent :=
      match firstMsg.content with
      | Content.str s => s
      | Content.blocks bs => joinTextParts bs
    let mergedContent :=
      originalContent ++ "\n\n[CONTEXT SUMMARY]\n" ++ summary ++ "\n[END CONTEXT SUMMARY]"
    let mergedFirst : Message := ⟨"user", Content.str mergedContent⟩
    let tail := messages.drop compactEnd
    mergedFirst ::
      ((if (tail.head?.map (·.role)) = some "user" then [ackMessage] else []) ++ tail)

/-- Constructor parameters of `SummarizeCompactionStrategy`
(defaults: 80 000 and 6). -/
structure SummarizeCfg where
  thresholdTokens : Nat
  protectedTailMessages : Nat
  deriving DecidableEq, Repr

/-- `SummarizeCompactionStrategy.maybe_compact(messages)`, with `_summarize`
abstracted as `summarize` (`none` models a raised exception, after which the
original messages are returned). -/
def maybeCompact (cfg : SummarizeCfg) (summarize : List Message → Option String)
    (messages : List Message) : List Message :=
  let estimated := estimateTokens messages
  if estimated < cfg.thresholdTokens then messages
  else if messages.length < 2 then messages
  else
    let compactStart := 1
    let compactEnd := messages.length - cfg.protectedTailMessages
    if compactEnd ≤ compactStart then messages
    else
      let compactEnd := adjustBoundary messages compactStart compactEnd
      if compactEnd ≤ compactStart then messages
      else
        let compactable := (messages.drop compactStart).take (compactEnd - compactStart)
        match summarize compactable with
        | none => messages
        | some summary => rebuildMessages messages compactEnd summary

/-- All `tool_use` block ids of one message. -/
def msgUseIds (m : Message) : List String :=
  match m.content with
  | Content.str _ => []
  | Content.blocks bs =>
    bs.filterMap fun b => match b with | Block.toolUse id _ _ _ => some id | _ => none

/-- All `tool_result` block `tool_use_id`s of one message. -/
def msgResultIds (m : Message) : List String :=
  match m.content with
  | Content.str _ => []
  | Content.blocks bs =>
    bs.filterMap fun b => match b with | Block.toolResult tid _ _ => some tid | _ => none

/-- All `tool_use` ids of a message list. -/
def useIds (messages : List Message) : List String :=
  (messages.map msgUseIds).flatten

/-- All `tool_result` ids of a message list. -/
def resultIds (messages : List Message) : List String :=
  (messages.map msgResultIds).flatten

/-- No severed pairs: every `tool_result` block's id also occurs as a
`tool_use` id somewhere in the list. -/
def noSeveredPairs (messages : List Message) : Bool :=
  (resultIds messages).all fun tid => (useIds messages).contains tid

/-- The runtime's pairing shape (spec §3): every `tool_result` block sits in
a message immediately preceded by an assistant message carrying the matching
`tool_use` block. -/
def immediatePairing (messages : List Message) : Bool :=
  (List.range messages.length).all fun j =>
    match messages[j]? with
    | none => true
    | some m =>
      (msgResultIds m).all fun tid =>
        decide (j ≠ 0) &&
          (match messages[j - 1]? with
           | some mp => mp.role == "assistant" && (msgUseIds mp).contains tid
           | none => false)

/-! ## Session manager (`memory/session_manager.py`) -/

/-- A row of the `messages` table (`id`, `created_at` omitted: the verified
properties never read them). -/
structure MsgRow where
  sessionId : String
  seq : Nat
  role : String
  content : Content
  tokenEstimate : Nat
  deriving DecidableEq, Repr

/-- `SELECT COALESCE(MAX(seq), 0) … WHERE session_id = ?`. -/
def maxSeq (table : List MsgRow) (sessionId : String) : Nat :=
  (table.filter (fun r => r.sessionId = sessionId)).foldl (fun acc r => max acc r.seq) 0

/-- `SessionManager.append_message(session_id, role, content)`: computes
`next_seq = max_seq + 1`, estimates tokens (`max(0, estimate_tokens(…))`,
trivial over `Nat`), inserts the row, and returns the new seq (the
`message_id` is a fresh UUID, omitted). -/
def appendMessage (table : List MsgRow) (sessionId role : String) (content : Content) :
    List MsgRow × Nat :=
  let nextSeq := maxSeq table sessionId + 1
  (table ++ [⟨sessionId, nextSeq, role, content, estimateTokens [⟨role, content⟩]⟩], nextSeq)

/-- One `append_message` request. -/
structure AppendOp where
  sessionId : String
  role : String
  content : Content
  deriving DecidableEq, Repr

/-- A sequence of `append_message` calls against a table. -/
def applyAppends (table : List MsgRow) (ops : List AppendOp) : List MsgRow :=
  ops.foldl (fun t op => (appendMessage t op.sessionId op.role op.content).1) table

/-- The stored seq values of one session, in table (= append) order. -/
def seqsOf (table : List MsgRow) (sessionId : String) : List Nat :=
  (table.filter (fun r => r.sessionId = sessionId)).map (·.seq)

/-- A session as seen by identifier resolution: its id and its (derived)
title. -/
structure SessionRec where
  id : String
  title : String
  deriving DecidableEq, Repr

/-- Result of identifier resolution (`ambiguous` models the raised
`ValueError` the tests call Ambiguous). -/
inductive ResolveOutcome where
  | found (s : SessionRec)
  | notFound
  | ambiguous
  deriving DecidableEq, Repr

/-- Modelled from the spec: `SessionManager.resolve_session_identifier` is
absent from `src/` (only its callers in `bootstrap.py` and `agent.py` and
its tests exist).  Per the spec (§4.3): match by exact id first, else
case-insensitive title match; `None` when no session matches; fail with
`Ambiguous` when the identifier matches more than one session by title. -/
def resolveSessionIdentifier (sessions : List SessionRec) (identifier : String) :
    ResolveOutcome :=
  match sessions.find? (fun s => s.id = identifier) with
  | some s => ResolveOutcome.found s
  | none =>
    match sessions.filter (fun s => pyLower s.title = pyLower identifier) with
    | [] => ResolveOutcome.notFound
    | [s] => ResolveOutcome.found s
    | _ :: _ :: _ => ResolveOutcome.ambiguous

/-- The case-insensitive title matches of an identifier. -/
def titleMatches (sessions : List SessionRec) (identifier : String) : List SessionRec :=
  sessions.filter (fun s => pyLower s.title = pyLower identifier)

/-! ## Checkpoint manager (`memory/checkpoints.py`)

The filesystem is a total map from resolved absolute paths (as segment
lists) to byte contents; real I/O errors cannot arise in the map model, so
of `rewind_files`' per-file `except` branch only the explicit
missing-backup-blob failure remains.  `Path.resolve()`'s canonicalisation
of `.`/`..` components and symlinks is out of model: paths are taken
already canonical, which every verified property is insensitive to. -/

/-- A parsed `pathlib.Path`: absolute flag plus components. -/
structure PyPath where
  absolute : Bool
  segs : List String
  deriving DecidableEq, Repr

/-- Split a character list on `/`. -/
def splitOnSlash : List Char → List (List Char)
  | [] => [[]]
  | c :: rest =>
    if c = '/' then [] :: splitOnSlash rest
    else
      match splitOnSlash rest with
      | [] => [[c]]
      | g :: gs => (c :: g) :: gs

/-- `Path(path_value)` for a POSIX path string: absolute iff it starts with
`/`; components are the non-empty `/`-separated segments. -/
def parsePyPath (s : String) : PyPath :=
  ⟨(match s.data with | '/' :: _ => true | _ => false),
   ((splitOnSlash s.data).map String.mk).filter (fun seg => seg ≠ "")⟩

/-- `str(path)` of a resolved absolute path. -/
def pathStr (p : List String) : String :=
  "/" ++ String.intercalate "/" p

/-- `CheckpointManager._resolve_path` + `_is_within_working_directory`:
relative paths are joined onto the working directory; the result must stay
inside the working directory (`relative_to` succeeding = segment-prefix
check), else a `ValueError` is raised (`none`). -/
def resolvePath (workingDirectory : List String) (pathValue : String) :
    Option (List String) :=
  let p := parsePyPath pathValue
  let candidate := if p.absolute then p.segs else workingDirectory ++ p.segs
  if workingDirectory.isPrefixOf candidate then some candidate else none

/-- The filesystem under the working directory. -/
def FS := List String → Option Bytes

/-- `path.write_bytes(b)` (parent directories implicitly exist in the map
model, matching the `mkdir(parents=True, exist_ok=True)` call). -/
def FS.write (fs : FS) (p : List String) (b : Bytes) : FS :=
  fun q => if q = p then some b else fs q

/-- `path.unlink()`. -/
def FS.remove (fs : FS) (p : List String) : FS :=
  fun q => if q = p then none else fs q

/-- A row of the `checkpoint_files` table (`backup_path` is always NULL in
this code path and omitted). -/
structure CFRow where
  checkpointId : String
  path : List String
  existedBefore : Bool
  backupBlob : Option Bytes
  deriving DecidableEq, Repr

/-- The store as the checkpoint code sees it: the `checkpoints` table
projected to `(id, session_id)` and the `checkpoint_files` table. -/
structure MemDB where
  checkpoints : List (String × String)
  checkpointFiles : List CFRow
  deriving DecidableEq, Repr

/-- `SELECT session_id FROM checkpoints WHERE id = ? LIMIT 1`. -/
def lookupCheckpoint (db : MemDB) (checkpointId : String) : Option String :=
  (db.checkpoints.find? (fun c => c.1 = checkpointId)).map (·.2)

/-- An emitted event, projected to `(session_id, event_type)` (payloads are
not read by any verified property). -/
def Ev := String × String

deriving instance DecidableEq, Repr for Ev

/-- The `ValueError`s the tracking path can raise. -/
inductive TrackError where
  | checkpointMissing
  | pathOutsideWorkingDirectory
  deriving DecidableEq, Repr

/-- `CheckpointManager._snapshot_file(checkpoint_id, path)`: raises when the
checkpoint does not exist; a second snapshot of the same `(checkpoint,
path)` is a no-op; otherwise records `existed_before` and the current bytes
and emits `checkpoint.file_tracked`. -/
def snapshotFile (db : MemDB) (fs : FS) (checkpointId : String) (path : List String) :
    Except TrackError (MemDB × List Ev) :=
  match lookupCheckpoint db checkpointId with
  | none => Except.error TrackError.checkpointMissing
  | some sessionId =>
    match db.checkpointFiles.find? (fun r => r.checkpointId = checkpointId ∧ r.path = path) with
    | some _ => Except.ok (db, [])
    | none =>
      let existedBefore := (fs path).isSome
      let backupBlob := fs path
      Except.ok
        ({ db with
            checkpointFiles :=
              db.checkpointFiles ++ [⟨checkpointId, path, existedBefore, backupBlob⟩] },
         [(sessionId, "checkpoint.file_tracked")])

/-- `CheckpointManager.maybe_track_tool_input(checkpoint_id, tool_input)`:
a missing, non-string or whitespace-only `path` value is a no-op returning
`[]`; otherwise the path is resolved (raising when outside the working
directory) and snapshotted, returning `[str(resolved)]`. -/
def maybeTrackToolInput (workingDirectory : List String) (db : MemDB) (fs : FS)
    (checkpointId : String) (toolInput : ToolInput) :
    Except TrackError (MemDB × List Ev × List String) :=
  match toolInput.get "path" with
  | some (JValue.jstr s) =>
    if pyStrip s = "" then Except.ok (db, [], [])
    else
      match resolvePath workingDirectory s with
      | none => Except.error TrackError.pathOutsideWorkingDirectory
      | some resolved =>
        match snapshotFile db fs checkpointId resolved with
        | Except.error e => Except.error e
        | Except.ok (db', evs) => Except.ok (db', evs, [pathStr resolved])
  | _ => Except.ok (db, [], [])

/-- One per-file outcome dict of `rewind_files`. -/
structure Outcome where
  path : String
  status : String
  detail : String
  deriving DecidableEq, Repr

/-- The body of `rewind_files`' per-file loop. -/
def rewindStep (acc : FS × List Outcome) (r : CFRow) : FS × List Outcome :=
  let fs := acc.1
  let outs := acc.2
  if r.existedBefore then
    match r.backupBlob with
    | none => (fs, outs ++ [⟨pathStr r.path, "failed", "missing backup blob"⟩])
    | some b => (fs.write r.path b, outs ++ [⟨pathStr r.path, "restored", ""⟩])
  else
    if (fs r.path).isSome then (fs.remove r.path, outs ++ [⟨pathStr r.path, "removed", ""⟩])
    else (fs, outs ++ [⟨pathStr r.path, "skipped", ""⟩])

/-- `CheckpointManager.rewind_files(checkpoint_id)`: `none` models the
raised `ValueError` for an unknown checkpoint; otherwise the tracked rows
are processed in `ORDER BY path ASC` order (insertion sort on `str(path)`),
returning the session id, the final filesystem, the outcome list and the
emitted events. -/
def rewindFiles (db : MemDB) (checkpointId : String) (fs : FS) :
    Option (String × FS × List Outcome × List Ev) :=
  match lookupCheckpoint db checkpointId with
  | none => none
  | some sessionId =>
    let rows := db.checkpointFiles.filter (fun r => r.checkpointId = checkpointId)
    let sorted := List.insertionSort (fun a b => pathStr a.path ≤ pathStr b.path) rows
    let folded := sorted.foldl rewindStep (fs, [])
    some (sessionId, folded.1, folded.2,
      [(sessionId, "rewind.started")]
        ++ sorted.map (fun _ => (sessionId, "rewind.file_restored"))
        ++ [(sessionId, "rewind.completed")])

/-- One later `_snapshot_file` call (its checkpoint id, its resolved path,
and the filesystem at the moment it ran). -/
structure SnapOp where
  checkpointId : String
  path : List String
  fsAt : FS

/-- One later snapshot call against the store; a call that raises leaves
the store unchanged (the insert never happened) and the exception is
swallowed by the caller (`Agent._maybe_track_mutation`). -/
def snapStep (db : MemDB) (op : SnapOp) : MemDB :=
  match snapshotFile db op.fsAt op.checkpointId op.path with
  | Except.ok (d', _) => d'
  | Except.error _ => db

/-- A sequence of later snapshot calls. -/
def applySnaps (db : MemDB) (ops : List SnapOp) : MemDB :=
  ops.foldl snapStep db

/-- Uniqueness of the `(checkpoint_id, path)` primary key across the
`checkpoint_files` rows. -/
def DistinctKeys (rows : List CFRow) : Prop :=
  rows.Pairwise (fun r1 r2 => ¬(r1.checkpointId = r2.checkpointId ∧ r1.path = r2.path))

/-! ## Event sink (`memory/event_sink.py`)

Every await point of the sink sits between whole queue/store operations
(`_flush_once` performs no await between its reads and its insert), so the
reachable behaviours are interleavings of atomic `emit` calls and
background `_flush_once()` ticks, followed by `close()`. -/

/-- One queued emission `(session_id, event_type, payload_json)`. -/
structure SinkEvent where
  sessionId : String
  eventType : String
  payload : String
  deriving DecidableEq, Repr

/-- Sink state: batch size (`max(1, batch_size)`, hence positive), the
internal queue, the closed flag, and the committed rows of the `events`
table (`id`/`created_at` omitted). -/
structure SinkState where
  batchSize : {n : Nat // 0 < n}
  queue : List SinkEvent
  closed : Bool
  store : List SinkEvent

/-- `AsyncEventSink(store, batch_size=…)` just started: empty queue, open. -/
def initSink (batchSize : Nat) : SinkState :=
  ⟨⟨max 1 batchSize, by omega⟩, [], false, []⟩

/-- `emit(session_id, type, payload)`: dropped when closed, else enqueued. -/
def SinkState.emit (st : SinkState) (e : SinkEvent) : SinkState :=
  if st.closed then st else { st with queue := st.queue ++ [e] }

/-- Modelled from the spec: `MemoryStore.transaction()` is missing from
`src/memory/store.py` (only its caller `AsyncEventSink._flush_once` at
`event_sink.py:72` and the spec's §4.1 declaration exist).  Per the spec's
words — "`transaction()` scoped acquisition of a write transaction with
guaranteed commit-or-rollback on all exit paths" and "writes all pending
events in one transaction" (§4.2) — the scoped block around the
`executemany` INSERT commits the batch on exit: the rows are appended to
the events table. -/
def transactionCommit (store : List SinkEvent) (rows : List SinkEvent) : List SinkEvent :=
  store ++ rows

/-- `_flush_once(force=…)`: move up to `batch_size` queued items into the
store in one transaction (the spec-modelled `transactionCommit`); with no
items, return (both early returns collapse to this in the model since
`items` is empty exactly when the queue is). -/
def flushOnce (st : SinkState) : SinkState :=
  let items := st.queue.take st.batchSize
  if items = [] then st
  else { st with queue := st.queue.drop st.batchSize,
                 store := transactionCommit st.store items }

/-- `_flush_all()`: `while not queue.empty(): _flush_once(force=True)`. -/
def flushAll (st : SinkState) : SinkState :=
  if h : st.queue = [] then st else flushAll (flushOnce st)
termination_by st.queue.length
decreasing_by
  have hbs := st.batchSize.2
  have htake : st.queue.take st.batchSize ≠ [] := by
    cases hq : st.queue with
    | nil => exact absurd hq h
    | cons a l =>
      cases hb : (st.batchSize : Nat) with
      | zero => omega
      | succ k => simp [hq, hb]
  have hlen : st.queue.length ≠ 0 := by
    intro h0
    exact h (List.eq_nil_of_length_eq_zero h0)
  simp only [flushOnce, htake, if_neg, if_false, List.length_drop]
  omega

/-- `close()`: set the closed flag, cancel the background task (after which
no more ticks run), then `_flush_all()`. -/
def closeSink (st : SinkState) : SinkState :=
  flushAll { st with closed := true }

/-- An atomic step interleaved before `close()`: an `emit` call or one
background-task `_flush_once()` tick. -/
inductive SinkOp where
  | emitOp (e : SinkEvent)
  | bgTick

/-- Run a pre-close interleaving. -/
def runSinkTrace (st : SinkState) (ops : List SinkOp) : SinkState :=
  ops.foldl
    (fun s op =>
      match op with
      | SinkOp.emitOp e => s.emit e
      | SinkOp.bgTick => flushOnce s)
    st

/-- The events emitted in a trace, in order. -/
def emittedOf (ops : List SinkOp) : List SinkEvent :=
  ops.filterMap fun op =>
    match op with
    | SinkOp.emitOp e => some e
    | SinkOp.bgTick => none

/-! ## Turn engine (`turn_engine.py`; `Agent._run_inner`/`_execute_tools` in
`agent.py` are the same logic inline)

The provider is an oracle: call `n` of `stream_chat` returns `script n`.
Tool execution is an oracle behind the `Tool` protocol: `execute` returns
the result string or the raised exception's message.  The engine model
yields the log of appended `(role, content)` messages — what
`_on_append_message` persisted — together with the lines printed by `run`
and how the call returned.  Compaction (`on_maybe_compact`) rewrites only
the in-memory list handed to the provider oracle and appends nothing, so it
does not appear in the log. -/

/-- A `tool_use` block as dispatched (`b["id"]`, `b["name"]`, `b["input"]`). -/
structure ToolUseBlock where
  id : String
  name : String
  input : ToolInput
  deriving DecidableEq, Repr

/-- The tool protocol as the engine uses it: `execute` returns a result
string or raises (error message). -/
structure Tool where
  execute : ToolInput → Except String String

/-- A `tool_result` dict produced by `run_one` (success dicts omit the
`is_error` key, equivalent to `false`). -/
structure ToolResultBlock where
  toolUseId : String
  content : String
  isError : Bool
  deriving DecidableEq, Repr

/-- `run_one(block)` of `TurnEngine.execute_tools`: unknown tool, successful
execution (with truncation), or caught exception. -/
def runOne (toolMap : String → Option Tool) (maxToolResultChars : Int)
    (block : ToolUseBlock) : ToolResultBlock :=
  match toolMap block.name with
  | none => ⟨block.id, "Error: unknown tool \"" ++ block.name ++ "\"", true⟩
  | some tool =>
    match tool.execute block.input with
    | Except.ok result =>
      ⟨block.id, truncateToolResult maxToolResultChars result block.name, false⟩
    | Except.error ex =>
      ⟨block.id, "Error executing tool \"" ++ block.name ++ "\": " ++ ex, true⟩

/-- `TurnEngine.execute_tools(tool_use_blocks)`:
`await asyncio.gather(*(run_one(b) for b in tool_use_blocks))` launches one
task per block and places each task's result at that task's argument
position — the interleaving in which the tasks complete
(`completionOrder`) never influences the returned list. -/
def executeTools (completionOrder : List Nat) (toolMap : String → Option Tool)
    (maxToolResultChars : Int) (toolUseBlocks : List ToolUseBlock) :
    List ToolResultBlock :=
  toolUseBlocks.map (runOne toolMap maxToolResultChars)

/-- The content of the user message appended after a batch: the ordered
`tool_result` dicts as content blocks. -/
def toolResultsContent (results : List ToolResultBlock) : List Block :=
  results.map (fun r => Block.toolResult r.toolUseId r.content r.isError)

/-- One oracle answer of `provider.stream_chat`: the assembled assistant
content, the extracted `tool_use` blocks and the stop reason. -/
structure ProviderResp where
  assistantContent : List Block
  toolUses : List ToolUseBlock
  stopReason : String

/-- Engine construction parameters relevant to `run`. -/
structure EngineCfg where
  maxTokens : Nat
  maxTokensRetries : Nat
  maxToolResultChars : Int
  toolMap : String → Option Tool

/-- The continuation user message appended on a `max_tokens` stop. -/
def continuationMessage : String :=
  "Your response was cut off because it exceeded the token limit. "
    ++ "Please continue, but be more concise. If you were writing a file, "
    ++ "break it into smaller sections or shorten the content."

/-- The terminal line printed when the retry budget is exhausted (`pfx` is
the engine's line prefix, `"assistant> "`). -/
def stoppedMessage (pfx : String) (maxTokens retries : Nat) : String :=
  "\n" ++ pfx ++ "[Stopped: response exceeded max_tokens ("
    ++ toString maxTokens ++ ") " ++ toString retries
    ++ " times in a row. Try increasing MaxTokens in config.json or simplifying the request.]"

/-- How a `run` call came back. -/
inductive RunExit where
  | stoppedMaxTokens
  | endTurn
  | providerPending
  deriving DecidableEq, Repr

/-- The `while True:` loop of `TurnEngine.run` after the opening user
message: each iteration consumes one provider answer; `fuel` bounds the
modelled iterations (`providerPending` marks an unfinished turn and occurs
in no verified property's conclusion).  `sched` gives each batch's task
completion interleaving for `execute_tools`. -/
def runLoop (cfg : EngineCfg) (script : Nat → ProviderResp) (sched : Nat → List Nat)
    (pfx : String) (callIdx attempts : Nat) (log : List Message)
    (printed : List String) (fuel : Nat) : List Message × List String × RunExit :=
  match fuel with
  | 0 => (log, printed, RunExit.providerPending)
  | fuel' + 1 =>
    let resp := script callIdx
    let log1 := log ++ [⟨"assistant", Content.blocks resp.assistantContent⟩]
    if resp.stopReason = "max_tokens" ∧ resp.toolUses = [] then
      if cfg.maxTokensRetries ≤ attempts + 1 then
        (log1, printed ++ [stoppedMessage pfx cfg.maxTokens cfg.maxTokensRetries],
         RunExit.stoppedMaxTokens)
      else
        runLoop cfg script sched pfx (callIdx + 1) (attempts + 1)
          (log1 ++ [⟨"user", Content.str continuationMessage⟩]) (printed ++ [""]) fuel'
    else
      if resp.toolUses = [] then (log1, printed, RunExit.endTurn)
      else
        let results :=
          executeTools (sched callIdx) cfg.toolMap cfg.maxToolResultChars resp.toolUses
        runLoop cfg script sched pfx (callIdx + 1) 0
          (log1 ++ [⟨"user", Content.blocks (toolResultsContent results)⟩])
          (printed ++ [""]) fuel'

/-- `TurnEngine.run(messages, user_message)`: append the opening user
message, then enter the loop with a zeroed consecutive-`max_tokens`
counter. -/
def engineRun (cfg : EngineCfg) (script : Nat → ProviderResp) (sched : Nat → List Nat)
    (pfx userMessage : String) (fuel : Nat) : List Message × List String × RunExit :=
  runLoop cfg script sched pfx 0 0 [⟨"user", Content.str userMessage⟩] [] fuel

end MicroX

namespace MicroX

/-- C9: the claim split into its three cases, as one statement. -/
theorem truncate_tool_result_spec (maxChars : Int) (result toolName : String) :
    (maxChars ≤ 0 → truncateToolResult maxChars result toolName = result) ∧
    ((result.length : Int) ≤ maxChars → truncateToolResult maxChars result toolName = result) ∧
    (0 < maxChars → maxChars < (result.length : Int) →
      truncateToolResult maxChars result toolName =
        result.take maxChars.toNat ++ truncationMarker maxChars result.length toolName) := by
  refine ⟨fun h => ?_, fun h => ?_, fun h1 h2 => ?_⟩
  · simp [truncateToolResult, h]
  · simp [truncateToolResult, h]
  · have : ¬ (maxChars ≤ 0 ∨ (result.length : Int) ≤ maxChars) := by omega
    simp [truncateToolResult, this]

/-- C9 witness: the three truncation cases at concrete inputs. -/
theorem truncate_tool_result_spec_witness :
    truncateToolResult (-2) "hello world" "bash" = "hello world" ∧
    truncateToolResult 20 "hello" "bash" = "hello" ∧
    truncateToolResult 5 "hello world" "bash" =
      "hello world".take (Int.toNat 5) ++ truncationMarker 5 "hello world".length "bash" :=
  ⟨(truncate_tool_result_spec (-2) "hello world" "bash").1 (by decide),
   (truncate_tool_result_spec 20 "hello" "bash").2.1 (by decide),
   (truncate_tool_result_spec 5 "hello world" "bash").2.2 (by decide) (by decide)⟩

/-- C6 counterexample: the claim says every `stream_chat` call returns a
stop reason in `{end_turn, tool_use, max_tokens}`, but
`AnthropicProvider.stream_chat` returns `response.stop_reason` unchanged:
an API response with stop reason `stop_sequence` reaches the turn engine
as is. -/
theorem anthropic_stop_reason_unnormalised_cex :
    ¬ ((anthropicStreamChatResult [AnthBlock.text "ok"] "stop_sequence").2.2
        ∈ normalisedStopReasons) := by
  decide

/-- C6 (amended): the OpenAI provider maps every finish reason (including a
missing one) into the three normalised values; the Anthropic provider
passes the API's stop reason through unchanged, so its result is
normalised only when the API value already is. -/
theorem stop_reason_normalisation (finishReason : Option String)
    (respContent : List AnthBlock) (respStopReason : String) :
    openaiStopReason finishReason ∈ normalisedStopReasons ∧
    (anthropicStreamChatResult respContent respStopReason).2.2 = respStopReason := by
  constructor
  · cases finishReason with
    | none => simp [openaiStopReason, openaiStopReasonMap, normalisedStopReasons]
    | some s =>
      simp only [openaiStopReason, openaiStopReasonMap, normalisedStopReasons]
      split_ifs <;> simp
  · rfl

/-- C5: resolution prefers an exact id match; with no id match it is
ambiguous exactly when more than one session matches the title
case-insensitively, not-found exactly when none does, and otherwise returns
the unique match. -/
theorem resolve_session_identifier_spec (sessions : List SessionRec) (identifier : String) :
    (∀ s, sessions.find? (fun t => t.id = identifier) = some s →
        resolveSessionIdentifier sessions identifier = ResolveOutcome.found s) ∧
    (sessions.find? (fun t => t.id = identifier) = none →
      ((resolveSessionIdentifier sessions identifier = ResolveOutcome.ambiguous ↔
          1 < (titleMatches sessions identifier).length) ∧
       (resolveSessionIdentifier sessions identifier = ResolveOutcome.notFound ↔
          (titleMatches sessions identifier).length = 0) ∧
       (∀ s, resolveSessionIdentifier sessions identifier = ResolveOutcome.found s ↔
          titleMatches sessions identifier = [s]))) := by
  constructor
  · intro s hs
    simp [resolveSessionIdentifier, hs]
  · intro hnone
    simp only [resolveSessionIdentifier, hnone, titleMatches]
    cases hfil : sessions.filter (fun s => pyLower s.title = pyLower identifier) with
    | nil => simp
    | cons a l =>
      cases l with
      | nil => simp
      | cons b l2 => simp

/-- C5 witness: two sessions sharing a title, resolved by that title
(case-insensitively), fail as ambiguous. -/
theorem resolve_session_identifier_spec_witness :
    resolveSessionIdentifier
        [⟨"a1", "Duplicate Name"⟩, ⟨"a2", "Duplicate Name"⟩] "duplicate name" =
      ResolveOutcome.ambiguous :=
  ((resolve_session_identifier_spec
      [⟨"a1", "Duplicate Name"⟩, ⟨"a2", "Duplicate Name"⟩] "duplicate name").2
    (by decide)).1.mpr (by decide)

/-- C10: a tool input whose `path` value is absent, not a string, or
whitespace-only makes `maybe_track_tool_input` return `[]` without touching
the store, emitting an event, or raising. -/
theorem blank_path_noop (workingDirectory : List String) (db : MemDB) (fs : FS)
    (checkpointId : String) (toolInput : ToolInput)
    (hblank : ∀ s, toolInput.get "path" = some (JValue.jstr s) → pyStrip s = "") :
    maybeTrackToolInput workingDirectory db fs checkpointId toolInput =
      Except.ok (db, [], []) := by
  unfold maybeTrackToolInput
  cases hp : toolInput.get "path" with
  | none => rfl
  | some v =>
    cases v with
    | jother => rfl
    | jstr s => simp [hblank s hp]

/-- C10 witness: a whitespace-only path is a no-op on a concrete store. -/
theorem blank_path_noop_witness :
    maybeTrackToolInput ["ws"] ⟨[], []⟩ (fun _ => none) "c1"
        [("path", JValue.jstr "  ")] =
      Except.ok (⟨[], []⟩, [], []) :=
  blank_path_noop ["ws"] ⟨[], []⟩ (fun _ => none) "c1" [("path", JValue.jstr "  ")]
    (by intro s hs; cases hs; rfl)

/-- C2: with the retry limit at its default of 3 and a provider answering
every call with no `tool_use` blocks and stop reason `max_tokens`, one
`run` call appends exactly the opening user message, three assistant
messages and two continuation user messages (6 messages), prints the
terminal `[Stopped: …]` line, and returns; continuation is requested only
while the consecutive-`max_tokens` counter is below the limit. -/
theorem max_tokens_retry_exhaustion (cfg : EngineCfg) (script : Nat → ProviderResp)
    (sched : Nat → List Nat) (pfx userMessage : String) (fuel : Nat)
    (hretries : cfg.maxTokensRetries = 3)
    (hscript : ∀ n, (script n).stopReason = "max_tokens" ∧ (script n).toolUses = [])
    (hfuel : 3 ≤ fuel) :
    engineRun cfg script sched pfx userMessage fuel =
      ([⟨"user", Content.str userMessage⟩,
        ⟨"assistant", Content.blocks (script 0).assistantContent⟩,
        ⟨"user", Content.str continuationMessage⟩,
        ⟨"assistant", Content.blocks (script 1).assistantContent⟩,
        ⟨"user", Content.str continuationMessage⟩,
        ⟨"assistant", Content.blocks (script 2).assistantContent⟩],
       ["", "", stoppedMessage pfx cfg.maxTokens 3],
       RunExit.stoppedMaxTokens) ∧
    ((engineRun cfg script sched pfx userMessage fuel).1.filter
        (fun m => m.role = "assistant")).length = 3 ∧
    (engineRun cfg script sched pfx userMessage fuel).1.length = 6 := by
  obtain ⟨k, rfl⟩ : ∃ k, fuel = k + 3 := ⟨fuel - 3, by omega⟩
  have h0 := hscript 0
  have h1 := hscript 1
  have h2 := hscript 2
  have heq : engineRun cfg script sched pfx userMessage (k + 3) =
      ([⟨"user", Content.str userMessage⟩,
        ⟨"assistant", Content.blocks (script 0).assistantContent⟩,
        ⟨"user", Content.str continuationMessage⟩,
        ⟨"assistant", Content.blocks (script 1).assistantContent⟩,
        ⟨"user", Content.str continuationMessage⟩,
        ⟨"assistant", Content.blocks (script 2).assistantContent⟩],
       ["", "", stoppedMessage pfx cfg.maxTokens 3],
       RunExit.stoppedMaxTokens) := by
    simp [engineRun, runLoop, h0.1, h0.2, h1.1, h1.2, h2.1, h2.2, hretries]
  refine ⟨heq, ?_, ?_⟩
  · rw [heq]
    simp [List.filter]
  · rw [heq]
    rfl

/-- C2 witness: a concrete always-`max_tokens` provider script. -/
theorem max_tokens_retry_exhaustion_witness :
    engineRun ⟨1024, 3, 0, fun _ => none⟩
        (fun _ => ⟨[Block.text "cut"], [], "max_tokens"⟩) (fun _ => [])
        "assistant> " "hi" 3 =
      ([⟨"user", Content.str "hi"⟩,
        ⟨"assistant", Content.blocks [Block.text "cut"]⟩,
        ⟨"user", Content.str continuationMessage⟩,
        ⟨"assistant", Content.blocks [Block.text "cut"]⟩,
        ⟨"user", Content.str continuationMessage⟩,
        ⟨"assistant", Content.blocks [Block.text "cut"]⟩],
       ["", "", stoppedMessage "assistant> " 1024 3],
       RunExit.stoppedMaxTokens) :=
  (max_tokens_retry_exhaustion ⟨1024, 3, 0, fun _ => none⟩
      (fun _ => ⟨[Block.text "cut"], [], "max_tokens"⟩) (fun _ => [])
      "assistant> " "hi" 3 rfl (fun _ => ⟨rfl, rfl⟩) (by omega)).1

/-- Membership in the collected `tool_use` ids. -/
theorem mem_useIds (messages : List Message) (tid : String) :
    tid ∈ useIds messages ↔ ∃ m ∈ messages, tid ∈ msgUseIds m := by
  simp [useIds, List.mem_flatten]

/-- Membership in the collected `tool_result` ids. -/
theorem mem_resultIds (messages : List Message) (tid : String) :
    tid ∈ resultIds messages ↔ ∃ m ∈ messages, tid ∈ msgResultIds m := by
  simp [resultIds, List.mem_flatten]

/-- An assistant message carrying some `tool_use` id satisfies the
boundary-retreat condition. -/
theorem isAssistantToolUse_of_useId (m : Message) (tid : String)
    (hrole : m.role = "assistant") (hmem : tid ∈ msgUseIds m) :
    isAssistantToolUse m = true := by
  unfold msgUseIds at hmem
  cases hc : m.content with
  | str s => rw [hc] at hmem; simp at hmem
  | blocks bs =>
    rw [hc] at hmem
    rcases List.mem_filterMap.mp hmem with ⟨b, hb, hfb⟩
    simp [isAssistantToolUse, hc, hrole, hasToolUse, List.any_eq_true]
    refine ⟨b, hb, ?_⟩
    cases b <;> simp_all

/-- Reading the `immediatePairing` invariant: every `tool_result` id of the
message at index `j` has a matching `tool_use` in the assistant message at
index `j - 1`. -/
theorem immediatePairing_spec (messages : List Message)
    (h : immediatePairing messages = true) :
    ∀ j m, messages[j]? = some m → ∀ tid ∈ msgResultIds m,
      ∃ mp, j ≠ 0 ∧ messages[j - 1]? = some mp ∧
        mp.role = "assistant" ∧ tid ∈ msgUseIds mp := by
  intro j m hj tid htid
  have hjlt : j < messages.length := by
    rcases List.getElem?_eq_some.mp hj with ⟨hlt, _⟩
    exact hlt
  have hall := (List.all_eq_true.mp h) j (List.mem_range.mpr hjlt)
  simp only [hj] at hall
  have hbody := (List.all_eq_true.mp hall) tid htid
  simp only [Bool.and_eq_true, decide_eq_true_eq] at hbody
  obtain ⟨hj0, hrest⟩ := hbody
  cases hp : messages[j - 1]? with
  | none =>
    simp only [hp] at hrest
    exact absurd hrest (by simp)
  | some mp =>
    simp only [hp, Bool.and_eq_true, beq_iff_eq] at hrest
    exact ⟨mp, hj0, rfl, hrest.1, List.elem_iff.mp hrest.2⟩

/-- With immediate pairing, a message list has no severed pairs at all. -/
theorem pairing_noSevered (messages : List Message)
    (hpair : immediatePairing messages = true) :
    noSeveredPairs messages = true := by
  rw [noSeveredPairs, List.all_eq_true]
  intro tid htid
  rcases (mem_resultIds messages tid).mp htid with ⟨m, hm, hmid⟩
  rcases List.mem_iff_getElem?.mp hm with ⟨j, hj⟩
  rcases immediatePairing_spec messages hpair j m hj tid hmid with
    ⟨mp, _, hjp, _, huse⟩
  have hmp : mp ∈ messages := List.getElem?_mem hjp
  exact List.elem_iff.mpr ((mem_useIds messages tid).mpr ⟨mp, hmp, huse⟩)

/-- The retreat property of `_adjust_boundary`: whenever the adjusted
boundary still exceeds `start + 1`, the loop exited on a break, so the
message just inside the boundary is not an assistant `tool_use` message. -/
theorem adjustBoundary_not_toolUse (messages : List Message) (start : Nat) :
    ∀ e m, start + 1 < adjustBoundary messages start e →
      messages[adjustBoundary messages start e - 1]? = some m →
      isAssistantToolUse m = false := by
  intro e
  induction e with
  | zero =>
    intro m hlt _
    simp [adjustBoundary] at hlt
  | succ e ih =>
    intro m hlt hget
    by_cases hc : start + 1 < e + 1
    · cases hm : messages[e]? with
      | none =>
        rw [adjustBoundary, if_pos hc] at hlt hget
        simp only [hm] at hlt hget
        rw [show e + 1 - 1 = e from rfl, hm] at hget
        exact absurd hget (by simp)
      | some m0 =>
        rw [adjustBoundary, if_pos hc] at hlt hget
        simp only [hm] at hlt hget
        by_cases ht : isAssistantToolUse m0 = true
        · rw [if_pos ht] at hlt hget
          exact ih m hlt hget
        · rw [if_neg ht] at hlt hget
          rw [show e + 1 - 1 = e from rfl, hm] at hget
          cases hget
          simpa using ht
    · rw [adjustBoundary, if_neg hc] at hlt
      exact absurd hlt hc

/-- `_rebuild_messages` never severs a pair when the message at the
adjusted boundary is not an assistant `tool_use` message: the only
`tool_result` blocks of the rebuilt list are those of the protected tail,
and each one's matching `tool_use` is also in the tail. -/
theorem rebuild_no_severing (messages : List Message) (e' : Nat) (s : String)
    (hpair : immediatePairing messages = true)
    (hend : ∀ m, messages[e' - 1]? = some m → isAssistantToolUse m = false) :
    noSeveredPairs (rebuildMessages messages e' s) = true := by
  cases messages with
  | nil => rfl
  | cons firstMsg rest =>
    rw [noSeveredPairs, List.all_eq_true]
    intro tid htid
    rcases (mem_resultIds _ tid).mp htid with ⟨mt, hmt, hmtid⟩
    -- the merged first message and the optional ack carry no tool_result
    have htail : mt ∈ (firstMsg :: rest).drop e' := by
      simp only [rebuildMessages, List.mem_cons, List.mem_append] at hmt
      rcases hmt with h1 | h2 | h3
      · subst h1; simp [msgResultIds] at hmtid
      · have hack : mt = ackMessage := by
          by_cases hu : (((firstMsg :: rest).drop e').head?.map (·.role)) = some "user"
          · rw [if_pos hu] at h2; simpa using h2
          · rw [if_neg hu] at h2; simp at h2
        subst hack
        simp [msgResultIds, ackMessage] at hmtid
      · exact h3
    rcases List.mem_iff_getElem?.mp htail with ⟨i, hi⟩
    rw [List.getElem?_drop] at hi
    rcases immediatePairing_spec (firstMsg :: rest) hpair (e' + i) mt hi tid hmtid with
      ⟨mp, hne0, hjp, hrole, huse⟩
    cases i with
    | zero =>
      have hf := hend mp (by simpa using hjp)
      have ht := isAssistantToolUse_of_useId mp tid hrole huse
      rw [ht] at hf
      exact absurd hf (by simp)
    | succ i' =>
      have hmp : ((firstMsg :: rest).drop e')[i']? = some mp := by
        rw [List.getElem?_drop]
        have : e' + (i' + 1) - 1 = e' + i' := by omega
        rw [this] at hjp
        exact hjp
      have hmpmem : mp ∈ (firstMsg :: rest).drop e' := List.getElem?_mem hmp
      have hmpres : mp ∈ rebuildMessages (firstMsg :: rest) e' s := by
        simp only [rebuildMessages, List.mem_cons, List.mem_append]
        exact Or.inr (Or.inr hmpmem)
      exact List.elem_iff.mpr ((mem_useIds _ tid).mpr ⟨mp, hmpres, huse⟩)

/-- `maybe_compact` preserves pairing whenever the adjusted boundary does
not end in an assistant `tool_use` message. -/
theorem maybeCompact_preserves_pairs (cfg : SummarizeCfg)
    (summarize : List Message → Option String) (messages : List Message)
    (hpair : immediatePairing messages = true)
    (hend : ∀ m,
        messages[adjustBoundary messages 1
            (messages.length - cfg.protectedTailMessages) - 1]? = some m →
        isAssistantToolUse m = false) :
    noSeveredPairs (maybeCompact cfg summarize messages) = true := by
  unfold maybeCompact
  by_cases h1 : estimateTokens messages < cfg.thresholdTokens
  · rw [if_pos h1]; exact pairing_noSevered messages hpair
  rw [if_neg h1]
  by_cases h2 : messages.length < 2
  · rw [if_pos h2]; exact pairing_noSevered messages hpair
  rw [if_neg h2]
  simp only []
  by_cases h3 : messages.length - cfg.protectedTailMessages ≤ 1
  · rw [if_pos h3]; exact pairing_noSevered messages hpair
  rw [if_neg h3]
  by_cases h4 : adjustBoundary messages 1 (messages.length - cfg.protectedTailMessages) ≤ 1
  · rw [if_pos h4]; exact pairing_noSevered messages hpair
  rw [if_neg h4]
  cases hs : summarize ((messages.drop 1).take
      (adjustBoundary messages 1 (messages.length - cfg.protectedTailMessages) - 1)) with
  | none => exact pairing_noSevered messages hpair
  | some summary => exact rebuild_no_severing messages _ summary hpair hend

/-- C7 counterexample: the claim as stated fails.  With threshold 1 and a
protected tail of 1, the well-paired list `[user, assistant(tool_use a),
user(tool_result a)]` is compacted with the boundary at index 2; the loop
guard `end > start + 1` prevents retreating past the assistant `tool_use`
message at index 1, which is summarised away while its paired `tool_result`
remains in the tail — the rebuilt list severs the pair. -/
theorem compaction_boundary_severs_cex :
    immediatePairing
      [⟨"user", Content.str "seed"⟩,
       ⟨"assistant", Content.blocks [Block.toolUse "a" "write_file" [] 2]⟩,
       ⟨"user", Content.blocks [Block.toolResult "a" "done" false]⟩] = true ∧
    noSeveredPairs
      [⟨"user", Content.str "seed"⟩,
       ⟨"assistant", Content.blocks [Block.toolUse "a" "write_file" [] 2]⟩,
       ⟨"user", Content.blocks [Block.toolResult "a" "done" false]⟩] = true ∧
    noSeveredPairs
      (maybeCompact ⟨1, 1⟩ (fun _ => some "S")
        [⟨"user", Content.str "seed"⟩,
         ⟨"assistant", Content.blocks [Block.toolUse "a" "write_file" [] 2]⟩,
         ⟨"user", Content.blocks [Block.toolResult "a" "done" false]⟩]) = false := by
  refine ⟨by decide, by decide, by decide⟩

/-- C7 (amended): the boundary is retreated past assistant `tool_use`
messages only while the slice keeps more than one message (`end > start +
1`); whenever the adjusted boundary exceeds `start + 1` the slice provably
does not end in an assistant `tool_use` message, and whenever the adjusted
slice does not end in an assistant `tool_use` message (the sole exception
being a slice shrunk to the single assistant `tool_use` message at index 1,
see the counterexample), the rebuilt list severs no pair. -/
theorem compaction_boundary_adjustment (cfg : SummarizeCfg)
    (summarize : List Message → Option String) (messages : List Message)
    (hpair : immediatePairing messages = true)
    (hend : ∀ m,
        messages[adjustBoundary messages 1
            (messages.length - cfg.protectedTailMessages) - 1]? = some m →
        isAssistantToolUse m = false) :
    noSeveredPairs (maybeCompact cfg summarize messages) = true ∧
    (∀ start e m, start + 1 < adjustBoundary messages start e →
        messages[adjustBoundary messages start e - 1]? = some m →
        isAssistantToolUse m = false) :=
  ⟨maybeCompact_preserves_pairs cfg summarize messages hpair hend,
   fun start e m hlt hget => adjustBoundary_not_toolUse messages start e m hlt hget⟩

/-- C7 witness: a list whose adjusted boundary lands on a plain user
message compacts without severing (the assistant `tool_use` and its
`tool_result` are summarised away together). -/
theorem compaction_boundary_adjustment_witness :
    noSeveredPairs
      (maybeCompact ⟨1, 1⟩ (fun _ => some "S")
        [⟨"user", Content.str "seed"⟩,
         ⟨"assistant", Content.blocks [Block.toolUse "a" "write_file" [] 2]⟩,
         ⟨"user", Content.blocks [Block.toolResult "a" "done" false]⟩,
         ⟨"user", Content.str "tail"⟩]) = true :=
  (compaction_boundary_adjustment ⟨1, 1⟩ (fun _ => some "S")
    [⟨"user", Content.str "seed"⟩,
     ⟨"assistant", Content.blocks [Block.toolUse "a" "write_file" [] 2]⟩,
     ⟨"user", Content.blocks [Block.toolResult "a" "done" false]⟩,
     ⟨"user", Content.str "tail"⟩]
    (by decide)
    (by
      intro m hm
      have h : (⟨"user", Content.blocks [Block.toolResult "a" "done" false]⟩ : Message) = m :=
        Option.some.inj hm
      rw [← h]
      decide)).1

/-- `MAX` over the seq column `1, …, n` is `n`. -/
theorem foldl_max_range (n : Nat) :
    (List.range' 1 n).foldl (fun a b => max a b) 0 = n := by
  induction n with
  | zero => rfl
  | succ k ih =>
    rw [List.range'_concat, List.foldl_append, ih]
    simp only [List.foldl_cons, List.foldl_nil]
    omega

/-- Extending `1, …, n` by `n + 1` gives `1, …, n + 1`. -/
theorem range_append_succ (n : Nat) :
    List.range' 1 n ++ [n + 1] = List.range' 1 (n + 1) := by
  rw [List.range'_concat]
  simp [Nat.add_comm]

/-- `maxSeq` is the fold of `max` over the stored seq values. -/
theorem maxSeq_eq_foldl (table : List MsgRow) (sessionId : String) :
    maxSeq table sessionId = (seqsOf table sessionId).foldl (fun a b => max a b) 0 := by
  rw [maxSeq, seqsOf, List.foldl_map]

/-- Appending a message extends exactly the target session's seq column. -/
theorem seqsOf_appendMessage (table : List MsgRow) (sessionId sid role : String)
    (content : Content) :
    seqsOf (appendMessage table sid role content).1 sessionId =
      if sid = sessionId then
        seqsOf table sessionId ++ [maxSeq table sid + 1]
      else seqsOf table sessionId := by
  simp only [appendMessage, seqsOf, List.filter_append, List.map_append]
  by_cases h : sid = sessionId
  · simp [h]
  · simp [h]

/-- C8: starting from an empty table, any interleaving of `append_message`
calls leaves every session's stored seq values exactly `1, 2, 3, …` in
append order — each call assigns `max(seq) + 1`, so there are no gaps and
no duplicates. -/
theorem monotone_seq (ops : List AppendOp) (sessionId : String) :
    seqsOf (applyAppends [] ops) sessionId =
      List.range' 1 ((ops.filter (fun op => op.sessionId = sessionId)).length) := by
  induction ops using List.reverseRecOn with
  | nil => rfl
  | append_singleton rest op ih =>
    have hstep : applyAppends [] (rest ++ [op]) =
        (appendMessage (applyAppends [] rest) op.sessionId op.role op.content).1 := by
      simp [applyAppends, List.foldl_append]
    rw [hstep, seqsOf_appendMessage, List.filter_append]
    by_cases h : op.sessionId = sessionId
    · rw [if_pos h, ih, maxSeq_eq_foldl, h, ih, foldl_max_range]
      have hlen : (List.filter (fun t => decide (t.sessionId = sessionId)) [op]).length = 1 := by
        simp [h]
      rw [List.length_append, hlen, range_append_succ]
    · rw [if_neg h, ih]
      simp [h]

/-- A non-empty queue strictly shrinks under one flush (the batch size is
at least 1). -/
theorem flushOnce_queue_lt (st : SinkState) (h : st.queue ≠ []) :
    (flushOnce st).queue.length < st.queue.length := by
  have hbs := st.batchSize.2
  have htake : st.queue.take st.batchSize ≠ [] := by
    cases hq : st.queue with
    | nil => exact absurd hq h
    | cons a l =>
      cases hb : (st.batchSize : Nat) with
      | zero => omega
      | succ k => simp [hq, hb]
  have hlen : st.queue.length ≠ 0 := by
    intro h0
    exact h (List.eq_nil_of_length_eq_zero h0)
  simp only [flushOnce, htake, if_neg, if_false, List.length_drop]
  omega

/-- One flush moves events from queue to store without loss, duplication or
reordering, and leaves the closed flag alone. -/
theorem flushOnce_frame (st : SinkState) :
    (flushOnce st).store ++ (flushOnce st).queue = st.store ++ st.queue ∧
    (flushOnce st).closed = st.closed := by
  unfold flushOnce transactionCommit
  by_cases h : st.queue.take st.batchSize = []
  · simp [h]
  · rw [if_neg h]
    exact ⟨by rw [List.append_assoc, List.take_append_drop], rfl⟩

/-- `_flush_all` commits the whole queue, in order, and empties it. -/
theorem flushAll_spec (st : SinkState) :
    (flushAll st).store = st.store ++ st.queue ∧ (flushAll st).queue = [] := by
  generalize hn : st.queue.length = n
  induction n using Nat.strong_induction_on generalizing st with
  | _ n ih =>
    rw [flushAll]
    split
    · next hq => simp [hq]
    · next hq =>
      have hlt : (flushOnce st).queue.length < st.queue.length := flushOnce_queue_lt st hq
      have hrec := ih (flushOnce st).queue.length (hn ▸ hlt) (flushOnce st) rfl
      have hframe := flushOnce_frame st
      refine ⟨?_, hrec.2⟩
      rw [hrec.1, ← hframe.1]

/-- Invariant of any pre-close interleaving started from an open sink: the
sink stays open and `store ++ queue` is exactly the emissions so far, in
order. -/
theorem runSinkTrace_inv (ops : List SinkOp) (st : SinkState) (hclosed : st.closed = false) :
    (runSinkTrace st ops).closed = false ∧
    (runSinkTrace st ops).store ++ (runSinkTrace st ops).queue =
      st.store ++ st.queue ++ emittedOf ops := by
  induction ops generalizing st with
  | nil => simp [runSinkTrace, emittedOf, hclosed]
  | cons op rest ih =>
    cases op with
    | emitOp e =>
      have hstep : runSinkTrace st (SinkOp.emitOp e :: rest) = runSinkTrace (st.emit e) rest :=
        rfl
      have hemit : st.emit e = { st with queue := st.queue ++ [e] } := by
        simp [SinkState.emit, hclosed]
      have := ih (st.emit e) (by rw [hemit]; exact hclosed)
      rw [hstep]
      refine ⟨this.1, ?_⟩
      rw [this.2, hemit]
      simp [emittedOf, List.append_assoc]
    | bgTick =>
      have hstep : runSinkTrace st (SinkOp.bgTick :: rest) = runSinkTrace (flushOnce st) rest :=
        rfl
      have hframe := flushOnce_frame st
      have := ih (flushOnce st) (hframe.2.trans hclosed)
      rw [hstep]
      refine ⟨this.1, ?_⟩
      rw [this.2]
      have hemitted : emittedOf (SinkOp.bgTick :: rest) = emittedOf rest := rfl
      rw [hemitted, ← hframe.1]

/-- C4: whatever interleaving of `emit` calls and background flush ticks
precedes it, `close()` drains the queue fully and afterwards the events
table holds exactly the pre-close emissions, in emission order — no
accepted emission is lost. -/
theorem event_sink_at_least_once (batchSize : Nat) (ops : List SinkOp) :
    (closeSink (runSinkTrace (initSink batchSize) ops)).store = emittedOf ops ∧
    (closeSink (runSinkTrace (initSink batchSize) ops)).queue = [] ∧
    ∀ e, e ∈ emittedOf ops →
      e ∈ (closeSink (runSinkTrace (initSink batchSize) ops)).store := by
  have hinv := runSinkTrace_inv ops (initSink batchSize) rfl
  have hstore : (runSinkTrace (initSink batchSize) ops).store ++
      (runSinkTrace (initSink batchSize) ops).queue = emittedOf ops := by
    have := hinv.2
    simpa [initSink] using this
  have hclose := flushAll_spec
    { runSinkTrace (initSink batchSize) ops with closed := true }
  have hfinal : (closeSink (runSinkTrace (initSink batchSize) ops)).store = emittedOf ops := by
    show (flushAll _).store = _
    rw [hclose.1]
    exact hstore
  exact ⟨hfinal, hclose.2, fun e he => hfinal ▸ he⟩

/-- C3: the tool results returned by `execute_tools` are exactly one
`tool_result` per `tool_use`, aligned with the `tool_use` order of the
assistant message, and the list is independent of the completion
interleaving of the concurrently dispatched tasks. -/
theorem tool_result_ordering (completionOrder : List Nat)
    (toolMap : String → Option Tool) (maxChars : Int) (blocks : List ToolUseBlock) :
    ((executeTools completionOrder toolMap maxChars blocks).map (·.toolUseId) =
        blocks.map (·.id)) ∧
    (toolResultsContent (executeTools completionOrder toolMap maxChars blocks) =
        blocks.map (fun b =>
          Block.toolResult b.id (runOne toolMap maxChars b).content
            (runOne toolMap maxChars b).isError)) ∧
    (∀ order2, executeTools order2 toolMap maxChars blocks =
        executeTools completionOrder toolMap maxChars blocks) := by
  have hid : ∀ b : ToolUseBlock, (runOne toolMap maxChars b).toolUseId = b.id := by
    intro b
    cases hm : toolMap b.name with
    | none => simp [runOne, hm]
    | some tool =>
      cases he : tool.execute b.input with
      | ok r => simp [runOne, hm, he]
      | error e => simp [runOne, hm, he]
  refine ⟨?_, ?_, fun order2 => rfl⟩
  · simp only [executeTools, List.map_map]
    exact List.map_congr_left fun b _ => hid b
  · simp only [executeTools, toolResultsContent, List.map_map]
    exact List.map_congr_left fun b _ => by simp [hid b]

/-- `snapshot_file` never touches the `checkpoints` table. -/
theorem snapStep_checkpoints (db : MemDB) (op : SnapOp) :
    (snapStep db op).checkpoints = db.checkpoints := by
  unfold snapStep snapshotFile
  cases lookupCheckpoint db op.checkpointId with
  | none => rfl
  | some sid =>
    cases db.checkpointFiles.find?
        (fun r => r.checkpointId = op.checkpointId ∧ r.path = op.path) with
    | some _ => rfl
    | none => rfl

/-- Later snapshots never touch the `checkpoints` table. -/
theorem applySnaps_checkpoints (later : List SnapOp) (db : MemDB) :
    (applySnaps db later).checkpoints = db.checkpoints := by
  induction later generalizing db with
  | nil => rfl
  | cons op rest ih =>
    show (applySnaps (snapStep db op) rest).checkpoints = _
    rw [ih, snapStep_checkpoints]

/-- First-mutation wins: a later snapshot never replaces an existing
`(checkpoint, path)` row. -/
theorem snapStep_preserves_find (db : MemDB) (op : SnapOp) (cid : String)
    (p : List String) (r : CFRow)
    (hfind : db.checkpointFiles.find?
        (fun t => t.checkpointId = cid ∧ t.path = p) = some r) :
    (snapStep db op).checkpointFiles.find?
        (fun t => t.checkpointId = cid ∧ t.path = p) = some r := by
  unfold snapStep snapshotFile
  cases lookupCheckpoint db op.checkpointId with
  | none => exact hfind
  | some sid =>
    cases hex : db.checkpointFiles.find?
        (fun t => t.checkpointId = op.checkpointId ∧ t.path = op.path) with
    | some _ => exact hfind
    | none =>
      show (db.checkpointFiles ++ _).find? _ = some r
      rw [List.find?_append, hfind]
      rfl

/-- A snapshot preserves primary-key uniqueness of `checkpoint_files`. -/
theorem snapStep_preserves_distinct (db : MemDB) (op : SnapOp)
    (hdk : DistinctKeys db.checkpointFiles) :
    DistinctKeys (snapStep db op).checkpointFiles := by
  unfold snapStep snapshotFile
  cases lookupCheckpoint db op.checkpointId with
  | none => exact hdk
  | some sid =>
    cases hex : db.checkpointFiles.find?
        (fun t => t.checkpointId = op.checkpointId ∧ t.path = op.path) with
    | some _ => exact hdk
    | none =>
      have hnone := List.find?_eq_none.mp hex
      unfold DistinctKeys at *
      show (db.checkpointFiles ++ _).Pairwise _
      rw [List.pairwise_append]
      refine ⟨hdk, by simp, ?_⟩
      intro a ha b hb
      simp only [List.mem_singleton] at hb
      subst hb
      intro hkey
      have hna := hnone a ha
      simp only [decide_eq_true_eq] at hna
      exact hna ⟨hkey.1, hkey.2⟩

/-- `snapStep_preserves_find` folded over a call sequence. -/
theorem applySnaps_preserves_find (later : List SnapOp) (db : MemDB) (cid : String)
    (p : List String) (r : CFRow)
    (hfind : db.checkpointFiles.find?
        (fun t => t.checkpointId = cid ∧ t.path = p) = some r) :
    (applySnaps db later).checkpointFiles.find?
        (fun t => t.checkpointId = cid ∧ t.path = p) = some r := by
  induction later generalizing db with
  | nil => exact hfind
  | cons op rest ih =>
    exact ih (snapStep db op) (snapStep_preserves_find db op cid p r hfind)

/-- `snapStep_preserves_distinct` folded over a call sequence. -/
theorem applySnaps_preserves_distinct (later : List SnapOp) (db : MemDB)
    (hdk : DistinctKeys db.checkpointFiles) :
    DistinctKeys (applySnaps db later).checkpointFiles := by
  induction later generalizing db with
  | nil => exact hdk
  | cons op rest ih =>
    exact ih (snapStep db op) (snapStep_preserves_distinct db op hdk)

/-- Evaluating `maybe_track_tool_input` on a fresh, resolvable path: the
snapshot row records the file's presence and bytes at tracking time. -/
theorem maybeTrack_result (wd : List String) (db0 : MemDB) (fs0 : FS)
    (cid sid : String) (ti : ToolInput) (pv : String) (resolved : List String)
    (hcp : lookupCheckpoint db0 cid = some sid)
    (hpv : ti.get "path" = some (JValue.jstr pv))
    (hnb : ¬ pyStrip pv = "")
    (hres : resolvePath wd pv = some resolved)
    (hfirst : db0.checkpointFiles.find?
        (fun r => r.checkpointId = cid ∧ r.path = resolved) = none) :
    maybeTrackToolInput wd db0 fs0 cid ti =
      Except.ok
        ({ db0 with checkpointFiles := db0.checkpointFiles ++
            [⟨cid, resolved, (fs0 resolved).isSome, fs0 resolved⟩] },
         [(sid, "checkpoint.file_tracked")], [pathStr resolved]) := by
  simp only [maybeTrackToolInput, hpv, hnb, hres, snapshotFile, hcp, hfirst, if_false]

/-- The filesystem at a path untouched by every row of a rewind fold is
unchanged. -/
theorem foldl_rewindStep_fs (rows : List CFRow) (p : List String)
    (hne : ∀ r ∈ rows, r.path ≠ p) :
    ∀ acc : FS × List Outcome, (rows.foldl rewindStep acc).1 p = acc.1 p := by
  induction rows with
  | nil => intro acc; rfl
  | cons r rest ih =>
    intro acc
    rw [List.foldl_cons,
      ih (fun t ht => hne t (List.mem_cons_of_mem r ht)) (rewindStep acc r)]
    have hrp : ¬ p = r.path := fun h => hne r (List.mem_cons_self r rest) h.symm
    unfold rewindStep
    by_cases heb : r.existedBefore = true
    · rw [if_pos heb]
      cases r.backupBlob with
      | none => rfl
      | some b => simp [FS.write, hrp]
    · rw [if_neg heb]
      by_cases hex : (acc.1 r.path).isSome = true
      · rw [if_pos hex]; simp [FS.remove, hrp]
      · rw [if_neg hex]

/-- A rewind fold only appends outcomes. -/
theorem foldl_rewindStep_outs (rows : List CFRow) :
    ∀ acc : FS × List Outcome, ∃ tl, (rows.foldl rewindStep acc).2 = acc.2 ++ tl := by
  induction rows with
  | nil => intro acc; exact ⟨[], by simp⟩
  | cons r rest ih =>
    intro acc
    rw [List.foldl_cons]
    rcases ih (rewindStep acc r) with ⟨tl, htl⟩
    have hstep : ∃ s, (rewindStep acc r).2 = acc.2 ++ s := by
      unfold rewindStep
      by_cases heb : r.existedBefore = true
      · rw [if_pos heb]
        cases r.backupBlob with
        | none => exact ⟨_, rfl⟩
        | some b => exact ⟨_, rfl⟩
      · rw [if_neg heb]
        by_cases hex : (acc.1 r.path).isSome = true
        · rw [if_pos hex]; exact ⟨_, rfl⟩
        · rw [if_neg hex]; exact ⟨_, rfl⟩
    rcases hstep with ⟨s, hs⟩
    exact ⟨s ++ tl, by rw [htl, hs, List.append_assoc]⟩

/-- One rewind step on a row whose file existed with a stored backup. -/
theorem rewindStep_restored (acc : FS × List Outcome) (r : CFRow) (b : Bytes)
    (heb : r.existedBefore = true) (hb : r.backupBlob = some b) :
    rewindStep acc r =
      (acc.1.write r.path b, acc.2 ++ [⟨pathStr r.path, "restored", ""⟩]) := by
  unfold rewindStep
  rw [if_pos heb, hb]

/-- One rewind step on a row whose file did not exist but exists now. -/
theorem rewindStep_removed (acc : FS × List Outcome) (r : CFRow)
    (heb : ¬ r.existedBefore = true) (hex : (acc.1 r.path).isSome = true) :
    rewindStep acc r =
      (acc.1.remove r.path, acc.2 ++ [⟨pathStr r.path, "removed", ""⟩]) := by
  unfold rewindStep
  rw [if_neg heb, if_pos hex]

/-- Core rewind lemma: under primary-key uniqueness, the row stored for a
path fully determines the rewound filesystem and outcome at that path,
whatever the other rows do. -/
theorem rewind_restores (db : MemDB) (cid sid : String) (row : CFRow) (fs1 : FS)
    (hdk : DistinctKeys db.checkpointFiles)
    (hcp : lookupCheckpoint db cid = some sid)
    (hfind : db.checkpointFiles.find?
        (fun t => t.checkpointId = cid ∧ t.path = row.path) = some row) :
    ∃ fs2 outs evs,
      rewindFiles db cid fs1 = some (sid, fs2, outs, evs) ∧
      (∀ b, row.existedBefore = true → row.backupBlob = some b →
        fs2 row.path = some b ∧ (⟨pathStr row.path, "restored", ""⟩ : Outcome) ∈ outs) ∧
      (row.existedBefore = false → (fs1 row.path).isSome = true →
        fs2 row.path = none ∧ (⟨pathStr row.path, "removed", ""⟩ : Outcome) ∈ outs) := by
  have hpred := List.find?_some hfind
  simp only [decide_eq_true_eq] at hpred
  have hmem : row ∈ db.checkpointFiles := List.mem_of_find?_eq_some hfind
  have hmemf : row ∈ db.checkpointFiles.filter (fun r => r.checkpointId = cid) := by
    rw [List.mem_filter]
    refine ⟨hmem, ?_⟩
    simp [hpred.1]
  have hpwkeys : (db.checkpointFiles.filter (fun r => r.checkpointId = cid)).Pairwise
      (fun r1 r2 => ¬(r1.checkpointId = r2.checkpointId ∧ r1.path = r2.path)) :=
    hdk.sublist (List.filter_sublist db.checkpointFiles)
  have hpwpath : (db.checkpointFiles.filter (fun r => r.checkpointId = cid)).Pairwise
      (fun r1 r2 => r1.path ≠ r2.path) := by
    refine List.Pairwise.imp_of_mem ?_ hpwkeys
    intro a b ha hb hkey hpath
    have hac : a.checkpointId = cid := by simpa using (List.mem_filter.mp ha).2
    have hbc : b.checkpointId = cid := by simpa using (List.mem_filter.mp hb).2
    exact hkey ⟨hac.trans hbc.symm, hpath⟩
  have hperm := List.perm_insertionSort (fun a b => pathStr a.path ≤ pathStr b.path)
    (db.checkpointFiles.filter (fun r => r.checkpointId = cid))
  have hmems : row ∈ List.insertionSort (fun a b => pathStr a.path ≤ pathStr b.path)
      (db.checkpointFiles.filter (fun r => r.checkpointId = cid)) :=
    hperm.mem_iff.mpr hmemf
  have hpws : (List.insertionSort (fun a b => pathStr a.path ≤ pathStr b.path)
      (db.checkpointFiles.filter (fun r => r.checkpointId = cid))).Pairwise
      (fun r1 r2 => r1.path ≠ r2.path) :=
    (hperm.pairwise_iff (fun h => Ne.symm h)).mpr hpwpath
  rcases List.append_of_mem hmems with ⟨l1, l2, hsplit⟩
  rw [hsplit] at hpws
  rw [List.pairwise_append] at hpws
  rcases hpws with ⟨_, hpwc, hcross⟩
  have hpre : ∀ t ∈ l1, ¬ t.path = row.path :=
    fun t ht => hcross t ht row (List.mem_cons_self row l2)
  have hpost : ∀ t ∈ l2, ¬ t.path = row.path := by
    intro t ht
    have := (List.pairwise_cons.mp hpwc).1 t ht
    exact fun h => this h.symm
  simp only [rewindFiles, hcp, hsplit]
  refine ⟨_, _, _, rfl, ?_, ?_⟩
  · intro b heb hb
    rw [List.foldl_append, List.foldl_cons]
    rw [rewindStep_restored (List.foldl rewindStep (fs1, []) l1) row b heb hb]
    constructor
    · rw [foldl_rewindStep_fs l2 row.path hpost]
      simp [FS.write]
    · rcases foldl_rewindStep_outs l2
        ((List.foldl rewindStep (fs1, []) l1).1.write row.path b,
         (List.foldl rewindStep (fs1, []) l1).2 ++ [⟨pathStr row.path, "restored", ""⟩]) with
        ⟨tl, htl⟩
      rw [htl]
      simp
  · intro heb hex
    rw [List.foldl_append, List.foldl_cons]
    have hfsA : (List.foldl rewindStep (fs1, []) l1).1 row.path = fs1 row.path :=
      foldl_rewindStep_fs l1 row.path hpre (fs1, [])
    have hebf : ¬ row.existedBefore = true := by simp [heb]
    rw [rewindStep_removed (List.foldl rewindStep (fs1, []) l1) row hebf
      (by rw [hfsA]; exact hex)]
    constructor
    · rw [foldl_rewindStep_fs l2 row.path hpost]
      simp [FS.remove]
    · rcases foldl_rewindStep_outs l2
        ((List.foldl rewindStep (fs1, []) l1).1.remove row.path,
         (List.foldl rewindStep (fs1, []) l1).2 ++ [⟨pathStr row.path, "removed", ""⟩]) with
        ⟨tl, htl⟩
      rw [htl]
      simp

/-- C1: rewind round-trip.  A path first tracked under a checkpoint via
`maybe_track_tool_input` (any later snapshots of any checkpoint may follow,
and the working tree may change arbitrarily): if the file existed with
bytes `b` at tracking time, `rewind_files` restores exactly `b` with
outcome status `restored`; if it did not exist and does at rewind time,
`rewind_files` deletes it with outcome status `removed`. -/
theorem checkpoint_rewind_roundtrip (wd : List String) (db0 : MemDB) (fs0 : FS)
    (cid sid : String) (ti : ToolInput) (pv : String) (resolved : List String)
    (later : List SnapOp)
    (hdk : DistinctKeys db0.checkpointFiles)
    (hcp : lookupCheckpoint db0 cid = some sid)
    (hpv : ti.get "path" = some (JValue.jstr pv))
    (hnb : ¬ pyStrip pv = "")
    (hres : resolvePath wd pv = some resolved)
    (hfirst : db0.checkpointFiles.find?
        (fun r => r.checkpointId = cid ∧ r.path = resolved) = none) :
    ∃ db1 evs,
      maybeTrackToolInput wd db0 fs0 cid ti = Except.ok (db1, evs, [pathStr resolved]) ∧
      ∀ fs1 : FS, ∃ fs2 outs evs2,
        rewindFiles (applySnaps db1 later) cid fs1 = some (sid, fs2, outs, evs2) ∧
        (∀ b, fs0 resolved = some b →
          fs2 resolved = some b ∧ (⟨pathStr resolved, "restored", ""⟩ : Outcome) ∈ outs) ∧
        (fs0 resolved = none → (fs1 resolved).isSome = true →
          fs2 resolved = none ∧ (⟨pathStr resolved, "removed", ""⟩ : Outcome) ∈ outs) := by
  have htrack := maybeTrack_result wd db0 fs0 cid sid ti pv resolved hcp hpv hnb hres hfirst
  refine ⟨_, _, htrack, ?_⟩
  intro fs1
  have hfind1 : ({ db0 with checkpointFiles := db0.checkpointFiles ++
        [⟨cid, resolved, (fs0 resolved).isSome, fs0 resolved⟩] } : MemDB).checkpointFiles.find?
      (fun t => t.checkpointId = cid ∧ t.path = resolved) =
      some ⟨cid, resolved, (fs0 resolved).isSome, fs0 resolved⟩ := by
    show (db0.checkpointFiles ++ _).find? _ = _
    rw [List.find?_append, hfirst]
    simp
  have hdk1 : DistinctKeys ({ db0 with checkpointFiles := db0.checkpointFiles ++
      [⟨cid, resolved, (fs0 resolved).isSome, fs0 resolved⟩] } : MemDB).checkpointFiles := by
    show DistinctKeys (db0.checkpointFiles ++ _)
    unfold DistinctKeys at *
    rw [List.pairwise_append]
    refine ⟨hdk, by simp, ?_⟩
    intro a ha b hb
    simp only [List.mem_singleton] at hb
    subst hb
    intro hkey
    have hna := List.find?_eq_none.mp hfirst a ha
    simp only [decide_eq_true_eq] at hna
    exact hna ⟨hkey.1, hkey.2⟩
  have hfind2 := applySnaps_preserves_find later _ cid resolved _ hfind1
  have hdk2 := applySnaps_preserves_distinct later _ hdk1
  have hcp2 : lookupCheckpoint (applySnaps { db0 with checkpointFiles :=
      db0.checkpointFiles ++ [⟨cid, resolved, (fs0 resolved).isSome, fs0 resolved⟩] } later)
      cid = some sid := by
    unfold lookupCheckpoint
    rw [applySnaps_checkpoints]
    exact hcp
  rcases rewind_restores _ cid sid ⟨cid, resolved, (fs0 resolved).isSome, fs0 resolved⟩ fs1
      hdk2 hcp2 hfind2 with ⟨fs2, outs, evs2, hrew, hrest, hrem⟩
  refine ⟨fs2, outs, evs2, hrew, ?_, ?_⟩
  · intro b hb
    exact hrest b (by simp [hb]) (by simp [hb])
  · intro h0 hex
    exact hrem (by simp [h0]) hex

/-- C1 witness: a one-file workspace.  Tracking `notes.txt` (present with
bytes `[98]`) then rewinding restores those bytes; the same theorem at a
second checkpoint covers the delete-new case. -/
theorem checkpoint_rewind_roundtrip_witness :
    ∃ db1 evs,
      maybeTrackToolInput ["ws"]
          ⟨[("c1", "s1")], []⟩
          (fun p => if p = ["ws", "notes.txt"] then some [98] else none)
          "c1" [("path", JValue.jstr "notes.txt")] =
        Except.ok (db1, evs, [pathStr ["ws", "notes.txt"]]) ∧
      ∀ fs1 : FS, ∃ fs2 outs evs2,
        rewindFiles (applySnaps db1 []) "c1" fs1 = some ("s1", fs2, outs, evs2) ∧
        (∀ b, (fun p => if p = ["ws", "notes.txt"] then some [98] else none : FS)
            ["ws", "notes.txt"] = some b →
          fs2 ["ws", "notes.txt"] = some b ∧
            (⟨pathStr ["ws", "notes.txt"], "restored", ""⟩ : Outcome) ∈ outs) ∧
        ((fun p => if p = ["ws", "notes.txt"] then some [98] else none : FS)
            ["ws", "notes.txt"] = none →
          (fs1 ["ws", "notes.txt"]).isSome = true →
          fs2 ["ws", "notes.txt"] = none ∧
            (⟨pathStr ["ws", "notes.txt"], "removed", ""⟩ : Outcome) ∈ outs) :=
  checkpoint_rewind_roundtrip ["ws"] ⟨[("c1", "s1")], []⟩
    (fun p => if p = ["ws", "notes.txt"] then some [98] else none)
    "c1" "s1" [("path", JValue.jstr "notes.txt")] "notes.txt" ["ws", "notes.txt"] []
    List.Pairwise.nil (by decide) rfl (by decide) (by decide) rfl

end MicroX
